import Mathlib

/-!
Verification development for the Mdm Ling Bakery stock-audit pipeline
(`src/app.py`).  The definitions below are a shallow embedding of the
pipeline: feed items are lists of tagged children, the item-processing
loop, the page inspector `check_single_page_range_rule`, the deep-check
result merge, and the final sort are translated directly from the source.
-/

namespace MdmLingAudit

/-! ### String primitives (Python `in`, `endswith`, `replace`, `strip`) -/

/-- Bool test: `pat` is a leading segment of `l` (character-by-character). -/
def listHasPre : List Char → List Char → Bool
  | [], _ => true
  | _ :: _, [] => false
  | p :: ps, c :: cs => p == c && listHasPre ps cs

/-- Bool test: `pat` occurs contiguously somewhere in `l` (Python `pat in s`). -/
def listHasSub (pat : List Char) : List Char → Bool
  | [] => pat.isEmpty
  | c :: cs => listHasPre pat (c :: cs) || listHasSub pat cs

/-- Python `pat in s` on strings. -/
def strContains (s pat : String) : Bool := listHasSub pat.data s.data

/-- Python `s.endswith(pat)`. -/
def strEndsWith (s pat : String) : Bool := listHasPre pat.data.reverse s.data.reverse

/-- Fuel-driven left-to-right non-overlapping replacement on character lists,
the semantics of Python `str.replace` for a non-empty pattern. -/
def replaceFuel (pat rep : List Char) : Nat → List Char → List Char
  | 0, s => s
  | _ + 1, [] => []
  | fuel + 1, c :: cs =>
    if listHasPre pat (c :: cs) then
      rep ++ replaceFuel pat rep fuel (List.drop (pat.length - 1) cs)
    else
      c :: replaceFuel pat rep fuel cs

/-- Python `s.replace(pat, rep)` (all occurrences, left to right). -/
def strReplace (s pat rep : String) : String :=
  ⟨replaceFuel pat.data rep.data s.data.length s.data⟩

/-- Python `s.strip()` (whitespace trimmed from both ends). -/
def strTrim (s : String) : String :=
  ⟨((s.data.dropWhile Char.isWhitespace).reverse.dropWhile Char.isWhitespace).reverse⟩

/-! ### Configuration (verbatim from `app.py`) -/

def WATCHLIST_KEYWORDS : List String :=
  ["Premium Pineapple Balls", "Anchor Butter Cookies", "Red Velvet Biscoff",
   "Pink Himalayan", "Kopi Siew Dai", "Molten Chocolate",
   "Chocolate Coffee", "Green Pea", "Peanut Cookies",
   "Almond Cookies", "Wholemeal Raisin", "Cranberry Pineapple",
   "Elegance Reunion", "Tote of"]

def SINGLE_VARIANT_IGNORE : List String :=
  ["Pandan", "Kueh Bangkit", "Mixed Berry", "Hojicha",
   "Nyonya Coconut", "Classic Cheese", "Love Letter"]

/-! ### Feed data model -/

/-- One XML child element: tag name (namespace text included) and its text.
Empty text stands for Python `None`/empty (both falsy). -/
structure XmlChild where
  tag : String
  text : String
deriving DecidableEq, Repr

/-- One `<item>` element of the feed: its list of children. -/
structure XmlItem where
  children : List XmlChild
deriving DecidableEq, Repr

/-- `get_tag_text`: first child whose tag ends with `ending` and whose text is
truthy; returns that text. -/
def get_tag_text (item : XmlItem) (ending : String) : Option String :=
  (item.children.find? fun c => strEndsWith c.tag ending && c.text != "").map
    fun c => c.text

/-! ### Rows, candidates and the item-processing loop -/

/-- One entry of `items_data`. -/
structure Row where
  productName : String
  status : String
  details : String
  url : Option String
  sortOrder : Nat
deriving DecidableEq, Repr

/-- One entry of `deep_check_candidates`. -/
structure Candidate where
  name : String
  url : String
deriving DecidableEq, Repr

/-- Title cleaning from the loop body:
`title.replace(" - Mdm Ling Bakery", "").replace("[CNY 2026]", "").strip()`. -/
def cleanName (title : String) : String :=
  strTrim (strReplace (strReplace title " - Mdm Ling Bakery" "") "[CNY 2026]" "")

/-- `any(k in name for k in WATCHLIST_KEYWORDS)`. -/
def is_watchlist (name : String) : Bool :=
  WATCHLIST_KEYWORDS.any fun k => strContains name k

/-- `any(k in name for k in SINGLE_VARIANT_IGNORE)`. -/
def is_ignored (name : String) : Bool :=
  SINGLE_VARIANT_IGNORE.any fun k => strContains name k

/-- One iteration of the item-processing loop: `none` when the record is
dropped (`if not title or not availability: continue`), otherwise the row
appended to `items_data` and the candidate (if any) appended to
`deep_check_candidates`. -/
def processItem (item : XmlItem) : Option (Row × Option Candidate) :=
  match get_tag_text item "title", get_tag_text item "availability" with
  | some title, some availability =>
    let link := get_tag_text item "link"
    let name := cleanName title
    if strContains availability "out_of_stock" then
      some (⟨name, "🔴 Out of Stock", "XML Feed Verified", link, 0⟩, none)
    else if is_watchlist name && !is_ignored name && link.isSome then
      some (⟨name, "⏳ Checking...", "XML Feed Verified", link, 2⟩,
            some ⟨name, link.getD ""⟩)
    else
      some (⟨name, "🟢 In Stock", "XML Feed Verified", link, 2⟩, none)
  | _, _ => none

/-- The whole loop: `items_data` and `deep_check_candidates`, in feed order. -/
def processItems (items : List XmlItem) : List Row × List Candidate :=
  (items.filterMap fun it => (processItem it).map Prod.fst,
   items.filterMap fun it => (processItem it).bind Prod.snd)

/-- A record survives the `if not title or not availability` guard. -/
def validRecord (it : XmlItem) : Bool :=
  (get_tag_text it "title").isSome && (get_tag_text it "availability").isSome

/-! ### Page inspector -/

/-- Abstract outcome of fetching and parsing one product page:
either some exception escaped inside the `try` block, or an HTTP status
code together with the text of the first `class="price"` element
(`none` when no price tag is found). -/
inductive FetchOutcome where
  | exn : FetchOutcome
  | status : Nat → Option String → FetchOutcome
deriving DecidableEq, Repr

/-- Result dictionary of `check_single_page_range_rule`. -/
structure CheckResult where
  name : String
  status : String
  details : String
deriving DecidableEq, Repr

/-- `check_single_page_range_rule(url, product_name)`, with the network and
parsing behaviour of the page abstracted into a `FetchOutcome`. -/
def check_single_page_range_rule (outcome : FetchOutcome) (product_name : String) :
    CheckResult :=
  match outcome with
  | .exn => ⟨product_name, "⚠️ Check Failed", "Timeout/Error"⟩
  | .status code priceTag =>
    if code ≠ 200 then
      ⟨product_name, "⚠️ Link Error", "Could not load page"⟩
    else
      match priceTag with
      | none => ⟨product_name, "🟢 In Stock", "No price tag found (Safe)"⟩
      | some price_text =>
        if strContains price_text "–" || strContains price_text "-" then
          ⟨product_name, "🟢 In Stock", "Range verified: " ++ price_text⟩
        else
          ⟨product_name, "⚠️ Variation OOS", "Single Price Only: " ++ price_text⟩

/-! ### Deep-check merge -/

/-- The in-place update a matched row receives from a deep-check result. -/
def updatedRow (old : Row) (res : CheckResult) : Row :=
  ⟨old.productName, res.status, res.details, old.url,
   if strContains res.status "Variation OOS" then 1
   else if strContains res.status "In Stock" then 2
   else old.sortOrder⟩

/-- The inner merge loop: update the FIRST row whose `Product Name` equals the
result's name, then `break`. -/
def applyResult : List Row → CheckResult → List Row
  | [], _ => []
  | row :: rest, res =>
    if row.productName = res.name then updatedRow row res :: rest
    else row :: applyResult rest res

/-- The results produced by the dispatched checks, in submission order;
`web` maps a product-page URL to its abstract fetch outcome. -/
def submittedResults (cands : List Candidate) (web : String → FetchOutcome) :
    List CheckResult :=
  cands.map fun c => check_single_page_range_rule (web c.url) c.name

/-- The outer merge loop: fold every result into `items_data`. -/
def mergeResults (rows : List Row) (results : List CheckResult) : List Row :=
  results.foldl applyResult rows

/-! ### Final sort -/

/-- Code-point lexicographic `≤` on character lists (Python string order). -/
def listLe : List Char → List Char → Bool
  | [], _ => true
  | _ :: _, [] => false
  | a :: as, b :: bs =>
    if a.toNat < b.toNat then true
    else if b.toNat < a.toNat then false
    else listLe as bs

/-- Python `≤` on strings, by code points. -/
def nameLe (a b : String) : Bool := listLe a.data b.data

/-- The key order of `df.sort_values(by=['_sort_order', 'Product Name'])`. -/
def rowle (a b : Row) : Bool :=
  a.sortOrder < b.sortOrder ||
    (a.sortOrder == b.sortOrder && nameLe a.productName b.productName)

instance : DecidableRel fun a b : Row => rowle a b = true := fun _ _ =>
  instDecidableEqBool _ _

/-- `df.sort_values(by=['_sort_order', 'Product Name'])`. -/
def sortRows (rows : List Row) : List Row :=
  rows.insertionSort fun a b => rowle a b = true

/-- The whole audit on a parsed feed: process items, run the deep checks,
merge the results in submission order, sort. -/
def runAudit (items : List XmlItem) (web : String → FetchOutcome) : List Row :=
  sortRows (mergeResults (processItems items).1
    (submittedResults (processItems items).2 web))

/-- Sort precedence an externally-visible status implies
(SOLD_OUT = 0, VARIANT_SOLD_OUT = 1, everything else = 2). -/
def statusRank (s : String) : Nat :=
  if s == "🔴 Out of Stock" then 0
  else if s == "⚠️ Variation OOS" then 1
  else 2

/-! ### The dispatcher with an explicit completion schedule

The thread pool completes the submitted checks in some order `sched` (a
permutation of the candidate indices).  The merge loop iterates the futures
dict in submission order and blocks on each future's own result
(`future.result()`), modelled as a lookup of the future's index in the
completed list. -/

/-- The deep-check results as delivered by the workers, in completion order:
`sched` lists candidate indices in the order the checks finish. -/
def completedIn (results : List CheckResult) (sched : List Nat) :
    List (Nat × CheckResult) :=
  sched.filterMap fun i => (results[i]?).map fun r => (i, r)

/-- The merge phase as the code runs it: iterate futures in submission order;
each iteration waits for (looks up) that future's own result and folds it in. -/
def dispatchMerge (rows : List Row) (results : List CheckResult)
    (sched : List Nat) : List Row :=
  (List.range results.length).foldl
    (fun rs j =>
      match (completedIn results sched).lookup j with
      | some r => applyResult rs r
      | none => rs)
    rows

/-- The audit with the deep-check completion order made explicit. -/
def runAuditSched (items : List XmlItem) (web : String → FetchOutcome)
    (sched : List Nat) : List Row :=
  sortRows (dispatchMerge (processItems items).1
    (submittedResults (processItems items).2 web) sched)

/-! ### Concrete feeds and page behaviours used in the examples below -/

/-- Feed item with the given `(tag, text)` children. -/
def mkItem (cs : List (String × String)) : XmlItem :=
  ⟨cs.map fun p => ⟨p.1, p.2⟩⟩

/-- A web on which every page fetch raises (never consulted in feeds without
deep-check candidates). -/
def webNone : String → FetchOutcome := fun _ => FetchOutcome.exn

/-- Two valid records sharing one canonical URL. -/
def c1Items : List XmlItem :=
  [mkItem [("title", "Butter Croissant"), ("g:availability", "in stock"),
           ("link", "https://x/dup")],
   mkItem [("title", "Milk Loaf"), ("g:availability", "in stock"),
           ("link", "https://x/dup")]]

/-- A feed-wide out-of-stock record and a watchlisted in-stock record that
share the same cleaned product name. -/
def c2Items : List XmlItem :=
  [mkItem [("title", "Green Pea"), ("g:availability", "out_of_stock")],
   mkItem [("title", "Green Pea"), ("g:availability", "in stock"),
           ("link", "https://x/a")]]

/-- The page at `https://x/a` shows a single bare price. -/
def c2Web : String → FetchOutcome := fun u =>
  if u = "https://x/a" then FetchOutcome.status 200 (some "$22.80")
  else FetchOutcome.exn

/-- Two watchlisted in-stock records with the same cleaned name and distinct
URLs. -/
def c3Items : List XmlItem :=
  [mkItem [("title", "Green Pea"), ("g:availability", "in stock"),
           ("link", "https://x/a")],
   mkItem [("title", "Green Pea"), ("g:availability", "in stock"),
           ("link", "https://x/b")]]

/-- Both pages show a healthy price range. -/
def c3Web : String → FetchOutcome := fun u =>
  if u = "https://x/a" then FetchOutcome.status 200 (some "$10.80 – $22.80")
  else if u = "https://x/b" then FetchOutcome.status 200 (some "$10.80 – $22.80")
  else FetchOutcome.exn

/-- A valid record whose availability text contains, but is not equal to, the
out-of-stock token. -/
def c4Items : List XmlItem :=
  [mkItem [("title", "Plain Loaf"), ("g:availability", "xx_out_of_stock_yy")]]

/-- A feed-OOS row and a pending row sharing a name, plus a second watchlisted
product whose page shows a single price. -/
def c8Items : List XmlItem :=
  [mkItem [("title", "Green Pea"), ("g:availability", "out_of_stock")],
   mkItem [("title", "Green Pea"), ("g:availability", "in stock"),
           ("link", "https://x/a")],
   mkItem [("title", "Peanut Cookies"), ("g:availability", "in stock"),
           ("link", "https://x/b")]]

/-- `https://x/a` 404s; `https://x/b` shows a single bare price. -/
def c8Web : String → FetchOutcome := fun u =>
  if u = "https://x/a" then FetchOutcome.status 404 none
  else if u = "https://x/b" then FetchOutcome.status 200 (some "$22.80")
  else FetchOutcome.exn

/-- A well-behaved feed: four valid records with pairwise-distinct cleaned
names, one feed-wide stockout, two deep-check candidates. -/
def auditItems : List XmlItem :=
  [mkItem [("title", "Almond Cookies - Mdm Ling Bakery"),
           ("g:availability", "out_of_stock")],
   mkItem [("title", "Green Pea"), ("g:availability", "in stock"),
           ("link", "https://x/a")],
   mkItem [("title", "Peanut Cookies"), ("g:availability", "in stock"),
           ("link", "https://x/b")],
   mkItem [("title", "Pandan Waffle"), ("g:availability", "in stock"),
           ("link", "https://x/c")]]

/-- `https://x/a` 404s; `https://x/b` shows a price range. -/
def auditWeb : String → FetchOutcome := fun u =>
  if u = "https://x/a" then FetchOutcome.status 404 none
  else if u = "https://x/b" then FetchOutcome.status 200 (some "$10.80 – $22.80")
  else FetchOutcome.exn

/-! ### Basic lemmas about the string primitives -/

theorem listHasPre_refl : ∀ l : List Char, listHasPre l l = true
  | [] => rfl
  | c :: cs => by simp [listHasPre, listHasPre_refl cs]

theorem listHasSub_refl : ∀ l : List Char, listHasSub l l = true
  | [] => rfl
  | c :: cs => by simp [listHasSub, listHasPre_refl]

theorem listHasSub_append_left (pat l : List Char) (h : listHasSub pat l = true) :
    ∀ xs : List Char, listHasSub pat (xs ++ l) = true
  | [] => h
  | x :: xs => by
    simp only [List.cons_append, listHasSub, Bool.or_eq_true]
    exact Or.inr (listHasSub_append_left pat l h xs)

theorem strContains_append_right (s t : String) : strContains (s ++ t) t = true := by
  have hdata : (s ++ t).data = s.data ++ t.data := rfl
  simp only [strContains, hdata]
  exact listHasSub_append_left t.data t.data (listHasSub_refl t.data) s.data

/-! ### Lemmas about the page inspector -/

theorem check_name (o : FetchOutcome) (p : String) :
    (check_single_page_range_rule o p).name = p := by
  unfold check_single_page_range_rule
  cases o with
  | exn => rfl
  | status code priceTag =>
    dsimp only
    split
    · rfl
    · cases priceTag with
      | none => rfl
      | some pt => dsimp only; split <;> rfl

theorem check_status_mem (o : FetchOutcome) (p : String) :
    (check_single_page_range_rule o p).status ∈
      ["⚠️ Check Failed", "⚠️ Link Error", "🟢 In Stock", "⚠️ Variation OOS"] := by
  unfold check_single_page_range_rule
  cases o with
  | exn => simp
  | status code priceTag =>
    dsimp only
    split
    · simp
    · cases priceTag with
      | none => simp
      | some pt => dsimp only; split <;> simp

/-! ### Lemmas about the merge step -/

theorem updatedRow_name (old : Row) (res : CheckResult) :
    (updatedRow old res).productName = old.productName := rfl

theorem updatedRow_url (old : Row) (res : CheckResult) :
    (updatedRow old res).url = old.url := rfl

theorem applyResult_map_name (res : CheckResult) :
    ∀ rows : List Row,
      (applyResult rows res).map (·.productName) = rows.map (·.productName)
  | [] => rfl
  | row :: rest => by
    unfold applyResult
    split
    · simp [updatedRow_name]
    · simp [applyResult_map_name res rest]

theorem applyResult_map_url (res : CheckResult) :
    ∀ rows : List Row, (applyResult rows res).map (·.url) = rows.map (·.url)
  | [] => rfl
  | row :: rest => by
    unfold applyResult
    split
    · simp [updatedRow_url]
    · simp [applyResult_map_url res rest]

theorem mem_applyResult (res : CheckResult) :
    ∀ rows : List Row, ∀ row ∈ applyResult rows res,
      row ∈ rows ∨ ∃ old ∈ rows, old.productName = res.name ∧ row = updatedRow old res
  | [], row, h => by cases h
  | hd :: rest, row, h => by
    unfold applyResult at h
    split at h
    · rcases List.mem_cons.mp h with h | h
      · exact Or.inr ⟨hd, List.mem_cons_self hd rest, by assumption, h⟩
      · exact Or.inl (List.mem_cons_of_mem hd h)
    · rcases List.mem_cons.mp h with h | h
      · exact Or.inl (h ▸ List.mem_cons_self hd rest)
      · rcases mem_applyResult res rest row h with h' | ⟨old, hold, hn, he⟩
        · exact Or.inl (List.mem_cons_of_mem hd h')
        · exact Or.inr ⟨old, List.mem_cons_of_mem hd hold, hn, he⟩

theorem mem_applyResult_of_ne (res : CheckResult) (rows : List Row) (row : Row)
    (h : row ∈ applyResult rows res) (hne : row.productName ≠ res.name) :
    row ∈ rows := by
  rcases mem_applyResult res rows row h with h' | ⟨old, _, hn, he⟩
  · exact h'
  · exact absurd (he ▸ (updatedRow_name old res).trans hn) hne

theorem applyResult_matched (res : CheckResult) :
    ∀ rows : List Row, (rows.map (·.productName)).Nodup →
      ∀ row ∈ applyResult rows res, row.productName = res.name →
        row.status = res.status
  | [], _, row, h, _ => by cases h
  | hd :: rest, hnd, row, h, heq => by
    unfold applyResult at h
    rw [List.map_cons, List.nodup_cons] at hnd
    split at h
    · rcases List.mem_cons.mp h with h | h
      · rw [h]; rfl
      · have hc : hd.productName = res.name := by assumption
        have hm : row.productName ∈ rest.map (·.productName) :=
          List.mem_map_of_mem (·.productName) h
        rw [heq, ← hc] at hm
        exact absurd hm hnd.1
    · rcases List.mem_cons.mp h with h | h
      · exact absurd (h ▸ heq) (by assumption)
      · exact applyResult_matched res rest hnd.2 row h heq

theorem applyResult_filter_ne (res : CheckResult) (n : String) (hne : res.name ≠ n) :
    ∀ rows : List Row,
      (applyResult rows res).filter (fun r => r.productName == n) =
        rows.filter (fun r => r.productName == n)
  | [] => rfl
  | hd :: rest => by
    unfold applyResult
    split
    · have h1 : (updatedRow hd res).productName ≠ n := by
        rw [updatedRow_name]
        exact fun hc => hne ((by assumption : hd.productName = res.name) ▸ hc)
      have h2 : hd.productName ≠ n := fun hc =>
        hne ((by assumption : hd.productName = res.name) ▸ hc)
      simp [List.filter_cons, h1, h2]
    · simp [List.filter_cons, applyResult_filter_ne res n hne rest]

theorem mergeResults_map_name (rows : List Row) (results : List CheckResult) :
    (mergeResults rows results).map (·.productName) = rows.map (·.productName) := by
  induction results generalizing rows with
  | nil => rfl
  | cons res rest ih =>
    unfold mergeResults at ih ⊢
    rw [List.foldl_cons, ih, applyResult_map_name]

theorem mergeResults_map_url (rows : List Row) (results : List CheckResult) :
    (mergeResults rows results).map (·.url) = rows.map (·.url) := by
  induction results generalizing rows with
  | nil => rfl
  | cons res rest ih =>
    unfold mergeResults at ih ⊢
    rw [List.foldl_cons, ih, applyResult_map_url]

theorem submittedResults_names (cands : List Candidate) (web : String → FetchOutcome) :
    (submittedResults cands web).map (·.name) = cands.map (·.name) := by
  unfold submittedResults
  rw [List.map_map]
  exact List.map_congr_left fun c _ => check_name (web c.url) c.name

/-! ### Lemmas about the item-processing loop -/

theorem processItem_none_iff (it : XmlItem) :
    processItem it = none ↔ validRecord it = false := by
  unfold processItem validRecord
  cases ht : get_tag_text it "title" with
  | none => simp
  | some t =>
    cases ha : get_tag_text it "availability" with
    | none => simp
    | some a =>
      simp only [Option.isSome_some, Bool.and_self, Bool.true_eq_false, iff_false]
      split
      · exact Option.some_ne_none _
      · split <;> exact Option.some_ne_none _

/-- Exhaustive description of what one loop iteration produces. -/
theorem processItem_shape (it : XmlItem) :
    (processItem it = none ∧ validRecord it = false) ∨
      (validRecord it = true ∧ ∃ name,
        processItem it =
            some (⟨name, "🔴 Out of Stock", "XML Feed Verified",
                   get_tag_text it "link", 0⟩, none) ∨
          (∃ l, get_tag_text it "link" = some l ∧
            processItem it =
              some (⟨name, "⏳ Checking...", "XML Feed Verified", some l, 2⟩,
                    some ⟨name, l⟩)) ∨
          processItem it =
            some (⟨name, "🟢 In Stock", "XML Feed Verified",
                   get_tag_text it "link", 2⟩, none)) := by
  have hv : validRecord it =
      ((get_tag_text it "title").isSome && (get_tag_text it "availability").isSome) := rfl
  unfold processItem
  cases ht : get_tag_text it "title" with
  | none => left; simp [hv, ht]
  | some t =>
    cases ha : get_tag_text it "availability" with
    | none => left; simp [hv, ht, ha]
    | some a =>
      right
      refine ⟨by simp [hv, ht, ha], cleanName t, ?_⟩
      dsimp only
      split
      · exact Or.inl rfl
      · split
        · rename_i hw
          refine Or.inr (Or.inl ?_)
          cases hl : get_tag_text it "link" with
          | none => rw [hl] at hw; simp at hw
          | some l => exact ⟨l, rfl, rfl⟩
        · exact Or.inr (Or.inr rfl)

theorem processItems_cons_none (it : XmlItem) (items : List XmlItem)
    (h : processItem it = none) : processItems (it :: items) = processItems items := by
  unfold processItems
  simp [List.filterMap_cons, h]

theorem processItems_cons_row (it : XmlItem) (items : List XmlItem) (row : Row)
    (h : processItem it = some (row, none)) :
    processItems (it :: items) =
      (row :: (processItems items).1, (processItems items).2) := by
  unfold processItems
  simp [List.filterMap_cons, h]

theorem processItems_cons_cand (it : XmlItem) (items : List XmlItem) (row : Row)
    (c : Candidate) (h : processItem it = some (row, some c)) :
    processItems (it :: items) =
      (row :: (processItems items).1, c :: (processItems items).2) := by
  unfold processItems
  simp [List.filterMap_cons, h]

theorem statusRank_oos : statusRank "🔴 Out of Stock" = 0 := by decide

theorem statusRank_pending : statusRank "⏳ Checking..." = 2 := by decide

theorem statusRank_instock : statusRank "🟢 In Stock" = 2 := by decide

theorem statusRank_varoos : statusRank "⚠️ Variation OOS" = 1 := by decide

theorem statusRank_checkfailed : statusRank "⚠️ Check Failed" = 2 := by decide

theorem statusRank_linkerror : statusRank "⚠️ Link Error" = 2 := by decide

/-- Candidate names appear among the row names (in order): the loop appends a
candidate only together with its own row carrying the same cleaned name. -/
theorem cand_names_sublist : ∀ items : List XmlItem,
    ((processItems items).2.map (·.name)).Sublist
      ((processItems items).1.map (·.productName))
  | [] => List.Sublist.refl _
  | it :: items => by
    rcases processItem_shape it with ⟨h, _⟩ | ⟨_, name, h | ⟨l, hl, h⟩ | h⟩
    · rw [processItems_cons_none it items h]; exact cand_names_sublist items
    · rw [processItems_cons_row it items _ h]
      exact (cand_names_sublist items).trans (List.sublist_cons_self _ _)
    · rw [processItems_cons_cand it items _ _ h, List.map_cons, List.map_cons]
      exact List.Sublist.cons₂ name (cand_names_sublist items)
    · rw [processItems_cons_row it items _ h]
      exact (cand_names_sublist items).trans (List.sublist_cons_self _ _)

/-- Every row the loop appends: its rank agrees with its status, its status is
one of the three initial statuses, and a pending row has a candidate of the
same name in the deep-check queue. -/
theorem initial_rows_facts : ∀ items : List XmlItem,
    ∀ row ∈ (processItems items).1,
      statusRank row.status = row.sortOrder ∧
      row.status ∈ ["🔴 Out of Stock", "⏳ Checking...", "🟢 In Stock"] ∧
      (row.status = "⏳ Checking..." →
        ∃ c ∈ (processItems items).2, c.name = row.productName)
  | [], row, h => by cases h
  | it :: items, row, h => by
    rcases processItem_shape it with ⟨hs, _⟩ | ⟨_, name, hs | ⟨l, hl, hs⟩ | hs⟩
    · rw [processItems_cons_none it items hs] at h ⊢
      exact initial_rows_facts items row h
    · rw [processItems_cons_row it items _ hs] at h ⊢
      rcases List.mem_cons.mp h with h | h
      · subst h
        exact ⟨statusRank_oos, by simp,
          fun hp => absurd hp (show ("🔴 Out of Stock" : String) ≠ "⏳ Checking..." by decide)⟩
      · exact initial_rows_facts items row h
    · rw [processItems_cons_cand it items _ _ hs] at h ⊢
      rcases List.mem_cons.mp h with h | h
      · subst h
        exact ⟨statusRank_pending, by simp,
          fun _ => ⟨⟨name, l⟩, List.mem_cons_self _ _, rfl⟩⟩
      · rcases initial_rows_facts items row h with ⟨h1, h2, h3⟩
        refine ⟨h1, h2, fun hp => ?_⟩
        rcases h3 hp with ⟨c, hc, hcn⟩
        exact ⟨c, List.mem_cons_of_mem _ hc, hcn⟩
    · rw [processItems_cons_row it items _ hs] at h ⊢
      rcases List.mem_cons.mp h with h | h
      · subst h
        exact ⟨statusRank_instock, by simp,
          fun hp => absurd hp (show ("🟢 In Stock" : String) ≠ "⏳ Checking..." by decide)⟩
      · exact initial_rows_facts items row h

/-- Every queued candidate has its own row: same name, pending status, rank 2. -/
theorem cand_row : ∀ items : List XmlItem,
    ∀ c ∈ (processItems items).2,
      ∃ row ∈ (processItems items).1,
        row.productName = c.name ∧ row.status = "⏳ Checking..." ∧ row.sortOrder = 2
  | [], c, h => by cases h
  | it :: items, c, h => by
    rcases processItem_shape it with ⟨hs, _⟩ | ⟨_, name, hs | ⟨l, hl, hs⟩ | hs⟩
    · rw [processItems_cons_none it items hs] at h ⊢
      exact cand_row items c h
    · rw [processItems_cons_row it items _ hs] at h ⊢
      rcases cand_row items c h with ⟨row, hr, hfacts⟩
      exact ⟨row, List.mem_cons_of_mem _ hr, hfacts⟩
    · rw [processItems_cons_cand it items _ _ hs] at h ⊢
      rcases List.mem_cons.mp h with h | h
      · subst h
        exact ⟨⟨name, "⏳ Checking...", "XML Feed Verified", some l, 2⟩,
          List.mem_cons_self _ _, rfl, rfl, rfl⟩
      · rcases cand_row items c h with ⟨row, hr, hfacts⟩
        exact ⟨row, List.mem_cons_of_mem _ hr, hfacts⟩
    · rw [processItems_cons_row it items _ hs] at h ⊢
      rcases cand_row items c h with ⟨row, hr, hfacts⟩
      exact ⟨row, List.mem_cons_of_mem _ hr, hfacts⟩

/-- Row-per-record accounting of URLs: one row per valid record, carrying that
record's `link` text. -/
theorem rows_countP_url : ∀ (items : List XmlItem) (u : String),
    ((processItems items).1.countP fun r => r.url == some u) =
      items.countP fun it => validRecord it && (get_tag_text it "link" == some u)
  | [], _ => rfl
  | it :: items, u => by
    rw [List.countP_cons]
    rcases processItem_shape it with ⟨hs, hvr⟩ | ⟨hvr, name, hs | ⟨l, hl, hs⟩ | hs⟩
    · rw [processItems_cons_none it items hs]
      simp [hvr, rows_countP_url items u]
    · rw [processItems_cons_row it items _ hs]
      simp only [List.countP_cons, rows_countP_url items u, hvr, Bool.true_and]
    · rw [processItems_cons_cand it items _ _ hs]
      simp only [List.countP_cons, rows_countP_url items u, hvr, Bool.true_and, hl]
    · rw [processItems_cons_row it items _ hs]
      simp only [List.countP_cons, rows_countP_url items u, hvr, Bool.true_and]

/-! ### The sort order is total and transitive -/

theorem listLe_total : ∀ a b : List Char, listLe a b = true ∨ listLe b a = true
  | [], _ => Or.inl rfl
  | _ :: _, [] => Or.inr rfl
  | a :: as, b :: bs => by
    unfold listLe
    rcases Nat.lt_trichotomy a.toNat b.toNat with h | h | h
    · left; simp [h]
    · rcases listLe_total as bs with ih | ih <;>
        simp [h, Nat.lt_irrefl, ih]
    · right; simp [h]

theorem listLe_cons_iff (a b : Char) (as bs : List Char) :
    listLe (a :: as) (b :: bs) = true ↔
      a.toNat < b.toNat ∨ (a.toNat = b.toNat ∧ listLe as bs = true) := by
  unfold listLe
  rcases Nat.lt_trichotomy a.toNat b.toNat with h | h | h
  · simp [h]
  · simp [h, Nat.lt_irrefl]
    cases as with
    | nil => rfl
    | cons a' as' =>
      cases bs with
      | nil => rfl
      | cons b' bs' =>
        by_cases h1 : a'.toNat < b'.toNat <;> by_cases h2 : b'.toNat < a'.toNat <;>
          simp [listLe, h1, h2]
  · simp [h, Nat.lt_asymm h, (Nat.ne_of_lt h).symm]

theorem listLe_trans : ∀ a b c : List Char,
    listLe a b = true → listLe b c = true → listLe a c = true
  | [], _, _, _, _ => rfl
  | _ :: _, [], _, hab, _ => by simp [listLe] at hab
  | _ :: _, _ :: _, [], _, hbc => by simp [listLe] at hbc
  | a :: as, b :: bs, c :: cs, hab, hbc => by
    rw [listLe_cons_iff] at hab hbc ⊢
    rcases hab with h1 | ⟨h1, h1'⟩ <;> rcases hbc with h2 | ⟨h2, h2'⟩
    · exact Or.inl (Nat.lt_trans h1 h2)
    · exact Or.inl (h2 ▸ h1)
    · exact Or.inl (h1 ▸ h2)
    · exact Or.inr ⟨h1.trans h2, listLe_trans as bs cs h1' h2'⟩

theorem rowle_total (a b : Row) : rowle a b = true ∨ rowle b a = true := by
  unfold rowle
  rcases Nat.lt_trichotomy a.sortOrder b.sortOrder with h | h | h
  · left; simp [h]
  · rcases listLe_total a.productName.data b.productName.data with hn | hn
    · left; simp [h, nameLe, hn]
    · right; simp [h, nameLe, hn]
  · right; simp [h]

theorem rowle_trans (a b c : Row) (hab : rowle a b = true) (hbc : rowle b c = true) :
    rowle a c = true := by
  unfold rowle at hab hbc ⊢
  simp only [Bool.or_eq_true, Bool.and_eq_true, beq_iff_eq, decide_eq_true_eq] at hab hbc ⊢
  rcases hab with hab | ⟨hab, hab'⟩
  · rcases hbc with hbc | ⟨hbc, _⟩
    · exact Or.inl (Nat.lt_trans hab hbc)
    · exact Or.inl (hbc ▸ hab)
  · rcases hbc with hbc | ⟨hbc, hbc'⟩
    · exact Or.inl (hab ▸ hbc)
    · exact Or.inr ⟨hab.trans hbc, listLe_trans _ _ _ hab' hbc'⟩

instance : IsTotal Row fun a b : Row => rowle a b = true := ⟨rowle_total⟩

instance : IsTrans Row fun a b : Row => rowle a b = true := ⟨rowle_trans⟩

theorem sortRows_perm (rows : List Row) : (sortRows rows).Perm rows :=
  List.perm_insertionSort _ rows

theorem sortRows_pairwise (rows : List Row) :
    (sortRows rows).Pairwise fun a b => rowle a b = true :=
  List.sorted_insertionSort _ rows

/-! ### The merge invariant -/

theorem updatedRow_status (old : Row) (res : CheckResult) :
    (updatedRow old res).status = res.status := rfl

theorem updatedRow_sortOrder (old : Row) (res : CheckResult) :
    (updatedRow old res).sortOrder =
      if strContains res.status "Variation OOS" then 1
      else if strContains res.status "In Stock" then 2
      else old.sortOrder := rfl

theorem updatedRow_rank (old : Row) (res : CheckResult)
    (h4 : res.status ∈
      ["⚠️ Check Failed", "⚠️ Link Error", "🟢 In Stock", "⚠️ Variation OOS"])
    (hold : old.sortOrder = 2) :
    statusRank (updatedRow old res).status = (updatedRow old res).sortOrder := by
  simp only [List.mem_cons, List.not_mem_nil, or_false] at h4
  rw [updatedRow_status, updatedRow_sortOrder, hold]
  rcases h4 with h | h | h | h <;> rw [h] <;> decide

theorem status_four_ne_pending (res : CheckResult)
    (h4 : res.status ∈
      ["⚠️ Check Failed", "⚠️ Link Error", "🟢 In Stock", "⚠️ Variation OOS"]) :
    res.status ≠ "⏳ Checking..." := by
  simp only [List.mem_cons, List.not_mem_nil, or_false] at h4
  rcases h4 with h | h | h | h <;> rw [h] <;> decide

/-- Main invariant of the deep-check merge.  Provided all row names are
pairwise distinct, once every result has been folded in: no row is still
pending, every row's rank agrees with its status, and every status belongs to
the closed set of display statuses. -/
theorem merge_invariant :
    ∀ (results : List CheckResult) (rows : List Row),
      (rows.map (·.productName)).Nodup →
      (results.map (·.name)).Nodup →
      (∀ res ∈ results, res.status ∈
        ["⚠️ Check Failed", "⚠️ Link Error", "🟢 In Stock", "⚠️ Variation OOS"]) →
      (∀ res ∈ results, ∀ row ∈ rows, row.productName = res.name →
        row.sortOrder = 2) →
      (∀ row ∈ rows, row.status = "⏳ Checking..." →
        ∃ res ∈ results, res.name = row.productName) →
      (∀ row ∈ rows, statusRank row.status = row.sortOrder) →
      (∀ row ∈ rows, row.status ∈
        ["🔴 Out of Stock", "⏳ Checking...", "🟢 In Stock",
         "⚠️ Check Failed", "⚠️ Link Error", "⚠️ Variation OOS"]) →
      ∀ row ∈ mergeResults rows results,
        row.status ≠ "⏳ Checking..." ∧
        statusRank row.status = row.sortOrder ∧
        row.status ∈ ["🔴 Out of Stock", "🟢 In Stock", "⚠️ Check Failed",
                      "⚠️ Link Error", "⚠️ Variation OOS"]
  | [], rows, _, _, _, _, hpend, hrank, hinit, row, hmem => by
    have hrow : row ∈ rows := hmem
    have hnp : row.status ≠ "⏳ Checking..." := fun hp => by
      rcases hpend row hrow hp with ⟨res, hres, _⟩
      cases hres
    refine ⟨hnp, hrank row hrow, ?_⟩
    have hsix := hinit row hrow
    simp only [List.mem_cons, List.not_mem_nil, or_false] at hsix ⊢
    rcases hsix with h | h | h | h | h | h
    · exact Or.inl h
    · exact absurd h hnp
    · exact Or.inr (Or.inl h)
    · exact Or.inr (Or.inr (Or.inl h))
    · exact Or.inr (Or.inr (Or.inr (Or.inl h)))
    · exact Or.inr (Or.inr (Or.inr (Or.inr h)))
  | res :: rest, rows, hnd, hndres, hstat, hmatch, hpend, hrank, hinit, row, hmem => by
    have hres4 := hstat res (List.mem_cons_self res rest)
    have hndres' : (rest.map (·.name)).Nodup := by
      rw [List.map_cons, List.nodup_cons] at hndres
      exact hndres.2
    have hheadname : res.name ∉ rest.map (·.name) := by
      rw [List.map_cons, List.nodup_cons] at hndres
      exact hndres.1
    have hnd' : ((applyResult rows res).map (·.productName)).Nodup := by
      rw [applyResult_map_name]; exact hnd
    have hmerge : mergeResults rows (res :: rest) =
        mergeResults (applyResult rows res) rest := rfl
    rw [hmerge] at hmem
    refine merge_invariant rest (applyResult rows res) hnd' hndres'
      (fun r hr => hstat r (List.mem_cons_of_mem res hr))
      ?_ ?_ ?_ ?_ row hmem
    · -- rows matching the name of a still-unmerged result keep rank 2
      intro res' hres' row' hrow' hname
      have hne : res'.name ≠ res.name := fun hc => by
        exact hheadname (hc ▸ List.mem_map_of_mem (·.name) hres')
      have hrow'' : row' ∈ rows :=
        mem_applyResult_of_ne res rows row' hrow' (fun hc => hne (hname.symm.trans hc))
      exact hmatch res' (List.mem_cons_of_mem res hres') row' hrow'' hname
    · -- every still-pending row still has a pending result
      intro row' hrow' hp
      rcases mem_applyResult res rows row' hrow' with hin | ⟨old, _, _, heq⟩
      · rcases hpend row' hin hp with ⟨res'', hres'', hn⟩
        rcases List.mem_cons.mp hres'' with hc | hc
        · exfalso
          have : row'.status = res.status :=
            applyResult_matched res rows hnd row' hrow' (hn.symm ▸ hc ▸ rfl)
          exact status_four_ne_pending res hres4 (this ▸ hp)
        · exact ⟨res'', hc, hn⟩
      · exfalso
        have : row'.status = res.status := by rw [heq, updatedRow_status]
        exact status_four_ne_pending res hres4 (this ▸ hp)
    · -- rank/status agreement survives one merge step
      intro row' hrow'
      rcases mem_applyResult res rows row' hrow' with hin | ⟨old, hold, holdn, heq⟩
      · exact hrank row' hin
      · rw [heq]
        exact updatedRow_rank old res hres4
          (hmatch res (List.mem_cons_self res rest) old hold holdn)
    · -- statuses stay in the closed set
      intro row' hrow'
      rcases mem_applyResult res rows row' hrow' with hin | ⟨old, _, _, heq⟩
      · exact hinit row' hin
      · rw [heq, updatedRow_status]
        simp only [List.mem_cons, List.not_mem_nil, or_false] at hres4 ⊢
        rcases hres4 with h | h | h | h
        · exact Or.inr (Or.inr (Or.inr (Or.inl h)))
        · exact Or.inr (Or.inr (Or.inr (Or.inr (Or.inl h))))
        · exact Or.inr (Or.inr (Or.inl h))
        · exact Or.inr (Or.inr (Or.inr (Or.inr (Or.inr h))))

theorem lookup_completedIn :
    ∀ (sched : List Nat) (results : List CheckResult) (j : Nat),
      (∀ i ∈ sched, i < results.length) → j ∈ sched →
        (completedIn results sched).lookup j = results[j]?
  | [], _, j, _, hj => absurd hj (List.not_mem_nil j)
  | i :: sched, results, j, hlt, hj => by
    have hi : i < results.length := hlt i (List.mem_cons_self i sched)
    have hcons : completedIn results (i :: sched) =
        (i, results[i]) :: completedIn results sched := by
      unfold completedIn
      rw [List.filterMap_cons, List.getElem?_eq_getElem hi]
      rfl
    rw [hcons]
    by_cases hji : j = i
    · subst hji
      simp [List.lookup, List.getElem?_eq_getElem hi]
    · have hj' : j ∈ sched := by
        rcases List.mem_cons.mp hj with h | h
        · exact absurd h hji
        · exact h
      have hb : (j == i) = false := beq_eq_false_iff_ne.mpr hji
      simp only [List.lookup, hb]
      exact lookup_completedIn sched results j
        (fun i' hi' => hlt i' (List.mem_cons_of_mem i hi')) hj'

theorem range_foldl_applyResult :
    ∀ (results : List CheckResult) (rows : List Row),
      (List.range results.length).foldl
        (fun rs j =>
          match results[j]? with
          | some r => applyResult rs r
          | none => rs) rows
      = mergeResults rows results
  | [], _ => rfl
  | r :: rest, rows => by
    rw [List.length_cons, List.range_succ_eq_map, List.foldl_cons, List.foldl_map]
    simp only [List.getElem?_cons_zero, List.getElem?_cons_succ]
    exact range_foldl_applyResult rest (applyResult rows r)

theorem dispatchMerge_eq (rows : List Row) (results : List CheckResult)
    (sched : List Nat) (hperm : sched.Perm (List.range results.length)) :
    dispatchMerge rows results sched = mergeResults rows results := by
  unfold dispatchMerge
  have hlt : ∀ i ∈ sched, i < results.length := fun i hi =>
    List.mem_range.mp (hperm.mem_iff.mp hi)
  have hfun : ∀ (rs : List Row), ∀ j ∈ List.range results.length,
      (match (completedIn results sched).lookup j with
       | some r => applyResult rs r
       | none => rs)
      = (match results[j]? with
         | some r => applyResult rs r
         | none => rs) := by
    intro rs j hj
    rw [lookup_completedIn sched results j hlt (hperm.mem_iff.mpr hj)]
  rw [List.foldl_ext _ _ rows hfun]
  exact range_foldl_applyResult results rows

theorem mergeResults_filter_ne (n : String) :
    ∀ (results : List CheckResult) (rows : List Row),
      (∀ res ∈ results, res.name ≠ n) →
      (mergeResults rows results).filter (fun r => r.productName == n) =
        rows.filter (fun r => r.productName == n)
  | [], _, _ => rfl
  | res :: rest, rows, h => by
    have hstep : mergeResults rows (res :: rest) =
        mergeResults (applyResult rows res) rest := rfl
    rw [hstep,
      mergeResults_filter_ne n rest (applyResult rows res)
        (fun r hr => h r (List.mem_cons_of_mem res hr)),
      applyResult_filter_ne res n (h res (List.mem_cons_self res rest))]

/-- Instantiation of the merge invariant at the audit's actual initial data:
under pairwise-distinct cleaned names, every merged row is resolved, its rank
agrees with its status, and the status is one of the five terminal display
statuses. -/
theorem final_rows_facts (items : List XmlItem) (web : String → FetchOutcome)
    (hnd : ((processItems items).1.map (·.productName)).Nodup) :
    ∀ row ∈ mergeResults (processItems items).1
        (submittedResults (processItems items).2 web),
      row.status ≠ "⏳ Checking..." ∧
      statusRank row.status = row.sortOrder ∧
      row.status ∈ ["🔴 Out of Stock", "🟢 In Stock", "⚠️ Check Failed",
                    "⚠️ Link Error", "⚠️ Variation OOS"] := by
  have hndres :
      ((submittedResults (processItems items).2 web).map (·.name)).Nodup := by
    rw [submittedResults_names]
    exact List.Nodup.sublist (cand_names_sublist items) hnd
  refine merge_invariant _ _ hnd hndres ?_ ?_ ?_ ?_ ?_
  · intro res hres
    rcases List.mem_map.mp hres with ⟨c, _, hc⟩
    rw [← hc]
    exact check_status_mem (web c.url) c.name
  · intro res hres row hrow hname
    rcases List.mem_map.mp hres with ⟨c, hcmem, hc⟩
    have hcn : res.name = c.name := by rw [← hc]; exact check_name _ _
    rcases cand_row items c hcmem with ⟨row0, hrow0, hname0, _, hrank0⟩
    have heq : row = row0 :=
      List.inj_on_of_nodup_map hnd hrow hrow0 (by rw [hname, hcn, ← hname0])
    rw [heq]
    exact hrank0
  · intro row hrow hp
    rcases (initial_rows_facts items row hrow).2.2 hp with ⟨c, hcmem, hcn⟩
    refine ⟨check_single_page_range_rule (web c.url) c.name,
      List.mem_map_of_mem _ hcmem, ?_⟩
    rw [check_name]
    exact hcn
  · intro row hrow
    exact (initial_rows_facts items row hrow).1
  · intro row hrow
    have h3 := (initial_rows_facts items row hrow).2.1
    simp only [List.mem_cons, List.not_mem_nil, or_false] at h3 ⊢
    rcases h3 with h | h | h
    · exact Or.inl h
    · exact Or.inr (Or.inl h)
    · exact Or.inr (Or.inr (Or.inl h))

/-! ### Claim C1 — deduplication by canonical URL -/

/-- C1 counterexample: the code never deduplicates by `canonicalUrl`.  Two
valid feed records carrying the same link both survive to the final result
set, so the final table holds two rows with that URL, not exactly one. -/
theorem c1_counterexample :
    ((runAudit c1Items webNone).countP fun r => r.url == some "https://x/dup") = 2 := by
  decide

/-- C1 amended: no URL-based deduplication happens anywhere in the pipeline.
For every feed, every valid record contributes exactly one row, carrying that
record's own link: the number of final rows with URL `u` equals the number of
valid records whose `link` text is `u`. -/
theorem c1_no_url_dedup (items : List XmlItem) (web : String → FetchOutcome)
    (u : String) :
    ((runAudit items web).countP fun r => r.url == some u) =
      items.countP fun it => validRecord it && (get_tag_text it "link" == some u) := by
  unfold runAudit
  rw [List.Perm.countP_eq _ (sortRows_perm _)]
  have hthrough : ∀ rows : List Row,
      (rows.countP fun r => r.url == some u) =
        ((rows.map (·.url)).countP fun o => o == some u) := by
    intro rows
    rw [List.countP_map]
    rfl
  rw [hthrough, mergeResults_map_url, ← hthrough]
  exact rows_countP_url items u

/-! ### Claim C4 — availability classification -/

/-- C4 counterexample: classification is not by exact match.  A record whose
availability text merely contains the token `out_of_stock` (here
`xx_out_of_stock_yy`, which is not equal to the token) is still classified
out-of-stock instead of in-stock. -/
theorem c4_counterexample :
    ((runAudit c4Items webNone).map fun r => r.status) = ["🔴 Out of Stock"] ∧
      ("xx_out_of_stock_yy" : String) ≠ "out_of_stock" := by
  decide

/-- C4 amended: the feed availability text is classified by substring
containment of the token `out_of_stock` (Python `in`), not by exact match:
a valid record's row is marked out-of-stock iff its availability text
contains the token. -/
theorem c4_substring_classification (it : XmlItem) (t a : String) (row : Row)
    (c : Option Candidate)
    (ht : get_tag_text it "title" = some t)
    (ha : get_tag_text it "availability" = some a)
    (hp : processItem it = some (row, c)) :
    row.status = "🔴 Out of Stock" ↔ strContains a "out_of_stock" = true := by
  unfold processItem at hp
  rw [ht, ha] at hp
  dsimp only at hp
  by_cases hoos : strContains a "out_of_stock" = true
  · rw [if_pos hoos] at hp
    simp only [Option.some.injEq, Prod.mk.injEq] at hp
    refine ⟨fun _ => hoos, fun _ => ?_⟩
    rw [← hp.1]
  · rw [if_neg hoos] at hp
    simp only [hoos, iff_false]
    split at hp <;>
      simp only [Option.some.injEq, Prod.mk.injEq] at hp <;>
      rw [← hp.1] <;>
      simp

/-- C4 witness: the amended classification at the concrete record with
availability text `xx_out_of_stock_yy`. -/
theorem c4_witness :
    (⟨"Plain Loaf", "🔴 Out of Stock", "XML Feed Verified", none, 0⟩ : Row).status =
        "🔴 Out of Stock" ↔
      strContains "xx_out_of_stock_yy" "out_of_stock" = true :=
  c4_substring_classification
    (mkItem [("title", "Plain Loaf"), ("g:availability", "xx_out_of_stock_yy")])
    "Plain Loaf" "xx_out_of_stock_yy"
    ⟨"Plain Loaf", "🔴 Out of Stock", "XML Feed Verified", none, 0⟩ none
    (by decide) (by decide) (by decide)

/-! ### Claim C5 — inspector failure paths -/

/-- C5 counterexample: a non-200 response does not produce the Check Failed
status with the code in the detail.  At HTTP 404 the inspector returns the
distinct status `⚠️ Link Error` with the fixed detail `Could not load page`,
which does not mention the failure code. -/
theorem c5_counterexample :
    check_single_page_range_rule (FetchOutcome.status 404 none) "P" =
        ⟨"P", "⚠️ Link Error", "Could not load page"⟩ ∧
      strContains "Could not load page" "404" = false ∧
      ("⚠️ Link Error" : String) ≠ "⚠️ Check Failed" := by
  decide

/-- C5 amended: the inspector is total — every failure path returns a result
value.  A non-200 response returns the status `⚠️ Link Error` with the fixed
detail `Could not load page` (the status code is not included), and any
exception inside the try block returns `⚠️ Check Failed` with the fixed
detail `Timeout/Error`. -/
theorem c5_failure_results (product_name : String) (code : Nat)
    (priceTag : Option String) (h : code ≠ 200) :
    check_single_page_range_rule (FetchOutcome.status code priceTag) product_name =
        ⟨product_name, "⚠️ Link Error", "Could not load page"⟩ ∧
      check_single_page_range_rule FetchOutcome.exn product_name =
        ⟨product_name, "⚠️ Check Failed", "Timeout/Error"⟩ := by
  refine ⟨?_, rfl⟩
  unfold check_single_page_range_rule
  simp [h]

/-- C5 witness: the amended failure results at HTTP 503. -/
theorem c5_witness :
    check_single_page_range_rule (FetchOutcome.status 503 none) "P2" =
        ⟨"P2", "⚠️ Link Error", "Could not load page"⟩ ∧
      check_single_page_range_rule FetchOutcome.exn "P2" =
        ⟨"P2", "⚠️ Check Failed", "Timeout/Error"⟩ :=
  c5_failure_results "P2" 503 none (by decide)

/-! ### Claim C6 — the watchlist decision -/

/-- C6: a deep-check candidate is queued iff the record is not feed-level
out-of-stock, its cleaned name contains a watchlist trigger, contains no
exclusion, and a truthy link is present; in every other case (including every
feed-level out-of-stock record, watchlisted or not) the record is skipped. -/
theorem c6_watchlist_decision (it : XmlItem) (t a : String)
    (ht : get_tag_text it "title" = some t)
    (ha : get_tag_text it "availability" = some a) :
    ((processItem it).bind fun p => p.2).isSome =
      (!strContains a "out_of_stock" && is_watchlist (cleanName t) &&
        !is_ignored (cleanName t) && (get_tag_text it "link").isSome) := by
  unfold processItem
  rw [ht, ha]
  by_cases h1 : strContains a "out_of_stock" = true
  · simp [h1]
  · rw [Bool.not_eq_true] at h1
    by_cases h2 : (is_watchlist (cleanName t) && !is_ignored (cleanName t) &&
        (get_tag_text it "link").isSome) = true
    · simp [h1, h2]
    · rw [Bool.not_eq_true] at h2
      simp [h1, h2]

/-- C6 witness: the decision at the spec's own scenario record
`Red Velvet Biscoff - Fun Size`, in stock, with a link. -/
theorem c6_witness :
    ((processItem (mkItem [("title", "Red Velvet Biscoff - Fun Size"),
        ("g:availability", "in stock"), ("link", "https://x/w")])).bind
          fun p => p.2).isSome =
      (!strContains "in stock" "out_of_stock" &&
        is_watchlist (cleanName "Red Velvet Biscoff - Fun Size") &&
        !is_ignored (cleanName "Red Velvet Biscoff - Fun Size") &&
        (get_tag_text (mkItem [("title", "Red Velvet Biscoff - Fun Size"),
          ("g:availability", "in stock"), ("link", "https://x/w")]) "link").isSome) :=
  c6_watchlist_decision
    (mkItem [("title", "Red Velvet Biscoff - Fun Size"),
      ("g:availability", "in stock"), ("link", "https://x/w")])
    "Red Velvet Biscoff - Fun Size" "in stock" (by decide) (by decide)

/-! ### Claim C7 — the price fallback (Range Rule) -/

/-- C7: with an HTTP 200 page whose price tag is present, a price text
containing a dash-like separator (en dash or hyphen) yields the in-stock
result, and a price text without one yields the variation-out-of-stock result
whose detail contains the literal price text. -/
theorem c7_price_fallback (product_name price_text : String) :
    ((strContains price_text "–" || strContains price_text "-") = true →
      check_single_page_range_rule (FetchOutcome.status 200 (some price_text))
          product_name =
        ⟨product_name, "🟢 In Stock", "Range verified: " ++ price_text⟩) ∧
    ((strContains price_text "–" || strContains price_text "-") = false →
      check_single_page_range_rule (FetchOutcome.status 200 (some price_text))
          product_name =
        ⟨product_name, "⚠️ Variation OOS", "Single Price Only: " ++ price_text⟩ ∧
      strContains ("Single Price Only: " ++ price_text) price_text = true) := by
  constructor
  · intro h
    unfold check_single_page_range_rule
    simp [h]
  · intro h
    refine ⟨?_, strContains_append_right "Single Price Only: " price_text⟩
    unfold check_single_page_range_rule
    simp [h]

/-- C7 witness: the single-bare-price branch at the literal price `$22.80`. -/
theorem c7_witness :
    check_single_page_range_rule (FetchOutcome.status 200 (some "$22.80"))
        "Peanut Cookies" =
      ⟨"Peanut Cookies", "⚠️ Variation OOS", "Single Price Only: " ++ "$22.80"⟩ ∧
    strContains ("Single Price Only: " ++ "$22.80") "$22.80" = true :=
  (c7_price_fallback "Peanut Cookies" "$22.80").2 (by decide)

/-! ### Claim C9 — invalid records are dropped silently -/

/-- C9: a record with no truthy title or no truthy availability text
contributes nothing to the audit: inserting it anywhere in the feed leaves
the final table unchanged, and processing continues over the rest. -/
theorem c9_invalid_record_dropped (pre post : List XmlItem) (it : XmlItem)
    (web : String → FetchOutcome) (h : validRecord it = false) :
    runAudit (pre ++ it :: post) web = runAudit (pre ++ post) web := by
  have hnone : processItem it = none := (processItem_none_iff it).mpr h
  unfold runAudit processItems
  simp [List.filterMap_append, List.filterMap_cons, hnone]

/-- C9 witness: a record missing its availability text, inserted between two
valid records, changes nothing. -/
theorem c9_witness :
    runAudit [mkItem [("title", "Butter Croissant"), ("g:availability", "in stock")],
        mkItem [("title", "Milk Loaf")],
        mkItem [("title", "Plain Loaf"), ("g:availability", "in stock")]] webNone =
      runAudit [mkItem [("title", "Butter Croissant"), ("g:availability", "in stock")],
        mkItem [("title", "Plain Loaf"), ("g:availability", "in stock")]] webNone :=
  c9_invalid_record_dropped
    [mkItem [("title", "Butter Croissant"), ("g:availability", "in stock")]]
    [mkItem [("title", "Plain Loaf"), ("g:availability", "in stock")]]
    (mkItem [("title", "Milk Loaf")]) webNone (by decide)

/-! ### Claim C10 — completion order never affects the output -/

/-- C10: with the feed and the page behaviour fixed, the final table is the
same under every completion order of the worker pool: the merge loop walks
the futures in submission order and waits for each future's own result, so
any permutation of the candidate indices as completion schedule produces
exactly the submission-order merge. -/
theorem c10_schedule_independent (items : List XmlItem)
    (web : String → FetchOutcome) (sched : List Nat)
    (hperm : sched.Perm (List.range (processItems items).2.length)) :
    runAuditSched items web sched = runAudit items web := by
  unfold runAuditSched runAudit
  rw [dispatchMerge_eq]
  have hlen : (submittedResults (processItems items).2 web).length =
      (processItems items).2.length := List.length_map _ _
  rw [hlen]
  exact hperm

/-- C10 witness: the audit feed with its two deep checks completing in
reversed order yields the identical final table. -/
theorem c10_witness :
    runAuditSched auditItems auditWeb [1, 0] = runAudit auditItems auditWeb :=
  c10_schedule_independent auditItems auditWeb [1, 0] (by decide)

/-! ### Claim C2 — is the feed-level SOLD_OUT status final? -/

/-- C2 counterexample: the deep-check merge matches rows by product name, so
a feed-level out-of-stock row is overwritten when a deep-checked product
shares its cleaned name.  In `c2Items` the feed yields exactly one
`🔴 Out of Stock` row, yet the final table has none: the merge rewrote it
with the deep-check result for the same-named watchlisted record. -/
theorem c2_counterexample :
    ((processItems c2Items).1.countP fun r => r.status == "🔴 Out of Stock") = 1 ∧
      ((runAudit c2Items c2Web).countP fun r => r.status == "🔴 Out of Stock") = 0 := by
  decide

/-- C2 amended: the feed-assigned status (in particular `SOLD_OUT`) is final
for every product whose cleaned name is not carried by any deep-check
candidate: all rows bearing such a name reach the final table unchanged (up
to the final sort). -/
theorem c2_soldout_final_without_name_clash (items : List XmlItem)
    (web : String → FetchOutcome) (n : String)
    (h : ∀ c ∈ (processItems items).2, c.name ≠ n) :
    ((runAudit items web).filter fun r => r.productName == n).Perm
      ((processItems items).1.filter fun r => r.productName == n) := by
  unfold runAudit
  refine (List.Perm.filter _ (sortRows_perm _)).trans ?_
  rw [mergeResults_filter_ne n (submittedResults (processItems items).2 web)
    (processItems items).1 ?_]
  intro res hres
  rcases List.mem_map.mp hres with ⟨c, hc, hceq⟩
  rw [← hceq, check_name]
  exact h c hc

/-- C2 witness: a feed-level out-of-stock product (`Almond Cookies`) whose
name no deep-check candidate carries keeps its row intact in the final
table. -/
theorem c2_witness :
    ((runAudit auditItems auditWeb).filter
        fun r => r.productName == "Almond Cookies").Perm
      ((processItems auditItems).1.filter
        fun r => r.productName == "Almond Cookies") :=
  c2_soldout_final_without_name_clash auditItems auditWeb "Almond Cookies"
    (by decide)

/-! ### Claim C3 — does every pending row resolve? -/

/-- C3 counterexample: two watchlisted records with the same cleaned name are
both queued and both placed in the pending placeholder state; every submitted
check yields a result, but the merge (`break` after the first name match)
applies both results to the first row, so one final row still carries the
placeholder `⏳ Checking...`. -/
theorem c3_counterexample :
    ((runAudit c3Items c3Web).countP fun r => r.status == "⏳ Checking...") = 1 ∧
      (processItems c3Items).2.length = 2 := by
  decide

/-- C3 amended: provided the valid records' cleaned names are pairwise
distinct, every pending row resolves before the table is finalized — every
final row carries one of the five terminal statuses (`⚠️ Link Error` being
the distinct display form of a failed check on a non-200 page), and none
carries the pending placeholder. -/
theorem c3_pending_resolved_under_distinct_names (items : List XmlItem)
    (web : String → FetchOutcome)
    (hnd : ((processItems items).1.map (·.productName)).Nodup) :
    ((runAudit items web).all fun row =>
      ["🔴 Out of Stock", "🟢 In Stock", "⚠️ Check Failed", "⚠️ Link Error",
        "⚠️ Variation OOS"].contains row.status) = true := by
  rw [List.all_eq_true]
  intro row hrow
  have hmem : row ∈ mergeResults (processItems items).1
      (submittedResults (processItems items).2 web) :=
    (sortRows_perm _).mem_iff.mp hrow
  have hfacts := final_rows_facts items web hnd row hmem
  exact List.elem_eq_true_of_mem hfacts.2.2

/-- C3 witness: on the audit feed (distinct names) every final row carries a
terminal status. -/
theorem c3_witness :
    ((runAudit auditItems auditWeb).all fun row =>
      ["🔴 Out of Stock", "🟢 In Stock", "⚠️ Check Failed", "⚠️ Link Error",
        "⚠️ Variation OOS"].contains row.status) = true :=
  c3_pending_resolved_under_distinct_names auditItems auditWeb (by decide)

/-! ### Claim C8 — order of the final table -/

/-- C8 counterexample: status-based precedence can break.  When a failure
result lands on a same-named feed-level out-of-stock row, that row keeps rank
0 with status `⚠️ Link Error`, so a row of "other" status (rank-2 by status)
precedes the `⚠️ Variation OOS` row in the final table. -/
theorem c8_counterexample :
    ((runAudit c8Items c8Web).map fun r => (r.status, r.sortOrder)) =
        [("⚠️ Link Error", 0), ("⚠️ Variation OOS", 1), ("⏳ Checking...", 2)] ∧
      statusRank "⚠️ Link Error" = 2 := by
  decide

/-- C8 amended: the final table is always totally ordered by the key
`(_sort_order ascending, Product Name ascending)`; and provided the valid
records' cleaned names are pairwise distinct, the stored rank agrees with the
status everywhere, so sold-out rows precede variation-out-of-stock rows,
which precede all rows of other statuses, ties ordered by name. -/
theorem c8_sort_order (items : List XmlItem) (web : String → FetchOutcome) :
    (runAudit items web).Pairwise (fun a b => rowle a b = true) ∧
      (((processItems items).1.map (·.productName)).Nodup →
        (runAudit items web).Pairwise fun a b =>
          statusRank a.status < statusRank b.status ∨
            (statusRank a.status = statusRank b.status ∧
              nameLe a.productName b.productName = true)) := by
  constructor
  · exact sortRows_pairwise _
  · intro hnd
    have hranks : ∀ row ∈ runAudit items web,
        statusRank row.status = row.sortOrder := by
      intro row hrow
      exact (final_rows_facts items web hnd row
        ((sortRows_perm _).mem_iff.mp hrow)).2.1
    refine List.Pairwise.imp_of_mem ?_ (sortRows_pairwise _)
    intro a b ha hb hab
    rw [hranks a ha, hranks b hb]
    unfold rowle at hab
    simp only [Bool.or_eq_true, Bool.and_eq_true, beq_iff_eq,
      decide_eq_true_eq] at hab
    exact hab

/-- C8 witness: the ordering statements at the audit feed. -/
theorem c8_witness :
    (runAudit auditItems auditWeb).Pairwise (fun a b => rowle a b = true) ∧
      (runAudit auditItems auditWeb).Pairwise (fun a b =>
        statusRank a.status < statusRank b.status ∨
          (statusRank a.status = statusRank b.status ∧
            nameLe a.productName b.productName = true)) :=
  ⟨(c8_sort_order auditItems auditWeb).1,
   (c8_sort_order auditItems auditWeb).2 (by decide)⟩

end MdmLingAudit
